import Mathlib

/-
Shallow embedding of the record-matching, selection-parsing, date-filtering,
spatial-indexing and region-filtering logic of the SeniorDesign_GammaSpec
repository (src/data_plotter.py, src/build_spatial_library.py,
src/data_fetcher.py, src/lunar_navigator.py).

Python strings are embedded as lists of characters, Python floats as rationals
(with a separate NaN marker where the code tests np.isnan), Python ints as ℤ,
and exception-raising functions as Except-valued functions.
-/

set_option maxHeartbeats 1000000
set_option maxRecDepth 8000

abbrev Str := List Char

/-- ASCII decimal digit class, as used by int() and by the regular expressions
of data_fetcher on these ASCII filenames. -/
def isDig (c : Char) : Bool := 48 ≤ c.toNat && c.toNat ≤ 57

/-- The whitespace set stripped by Python str.strip() and int(): space, tab,
newline, carriage return, vertical tab, form feed. -/
def pyIsSpace (c : Char) : Bool :=
  c.toNat == 32 || c.toNat == 9 || c.toNat == 10 || c.toNat == 13 ||
    c.toNat == 11 || c.toNat == 12

/-- Python str.strip(): remove leading and trailing whitespace. -/
def pyStrip (s : Str) : Str :=
  ((s.dropWhile pyIsSpace).reverse.dropWhile pyIsSpace).reverse

/-- Python str.split(sep) for a one-character separator: "".split(sep) is [""],
and n separators yield n+1 (possibly empty) fields. -/
def pySplit (sep : Char) : Str → List Str
  | [] => [[]]
  | c :: rest =>
    if c = sep then [] :: pySplit sep rest
    else
      match pySplit sep rest with
      | p :: ps => (c :: p) :: ps
      | [] => [[c]]

/-- Python str.lower() (ASCII case folding, which is all these filenames use). -/
def pyLower (s : Str) : Str := s.map Char.toLower

/-- Python str.endswith(suf). -/
def endswith (s suf : Str) : Bool := decide (s.drop (s.length - suf.length) = suf)

/-- Split around the first occurrence of c: (part before, part after), or none
when c does not occur. -/
def breakAtFirst (c : Char) : Str → Option (Str × Str)
  | [] => none
  | x :: rest =>
    if x = c then some ([], rest)
    else (breakAtFirst c rest).map (fun pq => (x :: pq.1, pq.2))

/-- os.path.basename: the part after the last slash. -/
def basenameOf (s : Str) : Str := (pySplit '/' s).getLastD []

/-- os.path.splitext applied to a basename: drop the extension after the last
dot, except that a name whose characters before that dot are all dots keeps
its full name (Python's leading-dot rule, so ".bashrc" has no extension). -/
def stemOf (bn : Str) : Str :=
  match breakAtFirst '.' bn.reverse with
  | none => bn
  | some pq =>
    let stem := pq.2.reverse
    if stem.all (fun c => c == '.') then bn else stem

/-- Lookup in a Python dict built from a key-value sequence: the last binding
of a key wins, as in a dict comprehension. -/
def lookupLast (k : Str) : List (Str × Str) → Option Str
  | [] => none
  | p :: rest =>
    match lookupLast k rest with
    | some v => some v
    | none => if p.1 = k then some p.2 else none

/-- Numeric value of a decimal digit string (most significant digit first). -/
def digitsVal (ds : Str) : ℕ := ds.foldl (fun n c => 10 * n + (c.toNat - 48)) 0

/-- Digit run with single grouping underscores between digits, as accepted by
int(); returns the digits with the underscores removed. -/
def digitsCore : Str → Option Str
  | [] => some []
  | c :: rest =>
    if isDig c then (digitsCore rest).map (fun ds => c :: ds)
    else if c = '_' then
      match rest with
      | [] => none
      | d :: _ => if isDig d then digitsCore rest else none
    else none

/-- Body of a Python int literal: a nonempty digit run (with optional grouping
underscores), value in ℕ. -/
def parseUDigits (cs : Str) : Option ℕ :=
  match cs with
  | [] => none
  | c :: _ => if isDig c then (digitsCore cs).map digitsVal else none

/-- Python int(str): strip whitespace, optional sign, decimal digits;
anything else raises ValueError (modelled as Except.error). -/
def pyInt (s : Str) : Except String ℤ :=
  match pyStrip s with
  | [] => Except.error ("invalid literal for int")
  | c :: rest =>
    if c = '-' then
      match parseUDigits rest with
      | some n => Except.ok (-(n : ℤ))
      | none => Except.error ("invalid literal for int")
    else if c = '+' then
      match parseUDigits rest with
      | some n => Except.ok ((n : ℤ))
      | none => Except.error ("invalid literal for int")
    else
      match parseUDigits (c :: rest) with
      | some n => Except.ok ((n : ℤ))
      | none => Except.error ("invalid literal for int")

/-- Python range(a, b) over integers, as the list a, a+1, ..., b-1. -/
def intRange (a b : ℤ) : List ℤ :=
  (List.range (b - a).toNat).map (fun (k : ℕ) => a + (k : ℤ))

/- ------------------------------------------------------------------ -/
/- src/data_plotter.py                                                 -/
/- ------------------------------------------------------------------ -/

/-- A numpy spectrum array as data_plotter sees it: 1D (one spectrum) or 2D
(one spectrum per sample, rows = samples). -/
inductive Spectrum where
  | one : List ℚ → Spectrum
  | two : List (List ℚ) → Spectrum
deriving DecidableEq

/-- data_plotter.safe_counts: a 1D spectrum is returned unchanged; a 2D
spectrum is collapsed with sum(axis=1), one total per row. -/
def safe_counts : Spectrum → Spectrum
  | .one s => .one s
  | .two m => .one (m.map List.sum)

/-- numpy array.sum() with no axis: the sum of every entry. -/
def Spectrum.total : Spectrum → ℚ
  | .one s => s.sum
  | .two m => m.flatten.sum

/-- The body of parse_file_selection for a range part: for i in
range(int(a), int(b) + 1), add i - 1 to the set when 1 <= i <= max_n.
The Python set is embedded as a duplicate-free list (List.insert adds an
element only when it is not yet present, which is set.add). -/
def addRange (max_n : ℤ) (out : List ℤ) (a b : ℤ) : List ℤ :=
  (intRange a (b + 1)).foldl
    (fun s i => if 1 ≤ i ∧ i ≤ max_n then List.insert (i - 1) s else s) out

/-- One comma-separated part of a selection string: stripped, then treated as
an inclusive range when it contains a dash and as a single index otherwise;
int() failures and bad unpacking of split("-") raise (Except.error). -/
def parsePart (max_n : ℤ) (out : List ℤ) (part0 : Str) : Except String (List ℤ) :=
  if ('-' : Char) ∈ pyStrip part0 then
    match pySplit '-' (pyStrip part0) with
    | [a, b] => do
      let ia ← pyInt a
      let ib ← pyInt b
      pure (addRange max_n out ia ib)
    | _ => Except.error ("bad unpack of split")
  else do
    let i ← pyInt (pyStrip part0)
    pure (if 1 ≤ i ∧ i ≤ max_n then List.insert (i - 1) out else out)

/-- data_plotter.parse_file_selection: split the selection on commas, process
each part into a set of zero-based indices, and return them sorted
(sorted() of a set: the ascending enumeration of its elements).
ValueError from int() or tuple unpacking propagates as Except.error. -/
def parse_file_selection (sel : Str) (max_n : ℤ) : Except String (List ℤ) := do
  let out ← (pySplit ',' sel).foldlM (parsePart max_n) []
  pure (List.insertionSort (fun a b => a ≤ b) out)

/- ------------------------------------------------------------------ -/
/- src/build_spatial_library.py                                        -/
/- ------------------------------------------------------------------ -/

/-- A float coordinate: NaN, or an (idealized) rational value. -/
abbrev PFloat := Option ℚ

/-- Python round(q): round half to even, to an integer. -/
def pyRound (q : ℚ) : ℤ :=
  if q - ⌊q⌋ < 1 / 2 then ⌊q⌋
  else if 1 / 2 < q - ⌊q⌋ then ⌊q⌋ + 1
  else if ⌊q⌋ % 2 = 0 then ⌊q⌋ else ⌊q⌋ + 1

/-- Python round(q, 4): round half to even at 4 decimal places. -/
def round4 (q : ℚ) : ℚ := (pyRound (q * 10000) : ℚ) / 10000

/-- The lat / lon arrays a mission parser returns (either may be None). -/
structure Parsed where
  lat : Option (List PFloat)
  lon : Option (List PFloat)
deriving DecidableEq

/-- One row of the spatial index CSV. -/
structure Row where
  mission : Str
  filename : Str
  record_index : ℕ
  lat : ℚ
  lon : ℚ
deriving DecidableEq

/-- The inner loop of build_library over enumerate(zip(lats, lons)): skip a
position when either coordinate is NaN, otherwise emit one row with the
4-decimal rounded coordinates and the position as record_index. -/
def emitRows (mission fname : Str) : ℕ → List (PFloat × PFloat) → List Row
  | _, [] => []
  | idx, pr :: rest =>
    match pr.1, pr.2 with
    | some a, some b =>
        ⟨mission, fname, idx, round4 a, round4 b⟩ :: emitRows mission fname (idx + 1) rest
    | _, _ => emitRows mission fname (idx + 1) rest

/-- The per-file body of build_library: whole-file skip when either coordinate
array is absent, lats is empty, or the lengths mismatch; otherwise the
enumerate(zip(...)) loop. -/
def processFile (mission : Str) (f : Str × Parsed) : List Row :=
  match f.2.lat, f.2.lon with
  | some lats, some lons =>
    if lats.length = 0 ∨ lats.length ≠ lons.length then []
    else emitRows mission f.1 0 (lats.zip lons)
  | _, _ => []

/-- build_spatial_library.build_library restricted to its one enabled mission
(Moon): the library rows accumulated over the parsed files in order, each file
given as (filename, parser output). -/
def build_library (files : List (Str × Parsed)) : List Row :=
  files.foldl (fun acc f => acc ++ processFile (("Moon").toList) f) []

/- ------------------------------------------------------------------ -/
/- src/data_fetcher.py                                                 -/
/- ------------------------------------------------------------------ -/

/-- A calendar date as datetime.date: comparisons are lexicographic. -/
structure Date where
  year : ℕ
  month : ℕ
  day : ℕ
deriving DecidableEq

/-- datetime.date ordering (lexicographic on year, month, day). -/
def dateLe (a b : Date) : Bool :=
  decide (a.year < b.year) ||
    (decide (a.year = b.year) &&
      (decide (a.month < b.month) ||
        (decide (a.month = b.month) && decide (a.day ≤ b.day))))

/-- data_fetcher.Record. -/
structure Record where
  key : Str
  date_start : Date
  date_end : Date
  files : List Str
  metadata : Option (List (Str × Str)) := none
deriving DecidableEq

/-- The date-filter comprehension in run_fetcher: keep r when
(not start_dt or r.date_end >= start_dt) and (not end_dt or
r.date_start <= end_dt); a missing bound (None) is unconstrained. -/
def filter_records_by_date (records : List Record) (start_dt end_dt : Option Date) :
    List Record :=
  records.filter (fun r =>
    (match start_dt with
     | none => true
     | some s => dateLe s r.date_end) &&
    (match end_dt with
     | none => true
     | some e => dateLe r.date_start e))

/-- Gregorian leap-year rule used by datetime. -/
def isLeap (y : ℕ) : Bool := y % 4 == 0 && (y % 100 != 0 || y % 400 == 0)

/-- Number of days in year y. -/
def daysInYear (y : ℕ) : ℕ := if isLeap y then 366 else 365

/-- The month lengths of year y. -/
def monthLengths (y : ℕ) : List ℕ :=
  [31, if isLeap y then 29 else 28, 31, 30, 31, 30, 31, 31, 30, 31, 30, 31]

/-- Convert a day-of-year to (month, day) by walking the month lengths. -/
def mdOfDoy : List ℕ → ℕ → ℕ → ℕ × ℕ
  | [], m, d => (m, d)
  | len :: rest, m, d => if d ≤ len then (m, d) else mdOfDoy rest (m + 1) (d - len)

/-- datetime.strptime(f"{year}-{doy}", "%Y-%j").date(): ValueError for year 0
or for a day-of-year outside 1..365 (366 in leap years). -/
def strptimeYj (y doy : ℕ) : Except String Date :=
  if y = 0 then Except.error ("year out of range")
  else if doy = 0 ∨ daysInYear y < doy then Except.error ("day of year out of range")
  else Except.ok ⟨y, (mdOfDoy (monthLengths y) 1 doy).1, (mdOfDoy (monthLengths y) 1 doy).2⟩

/-- Match of the regex (\d{4})_(\d{3})_grs (re.IGNORECASE) anchored at the
head of cs; returns the values of the year and day-of-year groups. -/
def lpMatchAt (cs : Str) : Option (ℕ × ℕ) :=
  match cs with
  | y1 :: y2 :: y3 :: y4 :: u1 :: d1 :: d2 :: d3 :: u2 :: g :: r :: s :: _ =>
    if isDig y1 && isDig y2 && isDig y3 && isDig y4 && (u1 == '_') &&
        isDig d1 && isDig d2 && isDig d3 && (u2 == '_') &&
        (g.toLower == 'g') && (r.toLower == 'r') && (s.toLower == 's') then
      some (digitsVal [y1, y2, y3, y4], digitsVal [d1, d2, d3])
    else none
  | _ => none

/-- re.search with the LP pattern: first match scanning left to right. -/
def lpSearch : Str → Option (ℕ × ℕ)
  | [] => none
  | c :: rest =>
    match lpMatchAt (c :: rest) with
    | some m => some m
    | none => lpSearch rest

/-- The loop body of _list_lp_records for one .xml href: look the lowercased
stem up among the .dat stems, search the basename for the LP pattern, and on
success append a Record with equal start and end dates. -/
def lpStep (datPairs : List (Str × Str)) (recs : List Record) (x : Str) :
    Except String (List Record) :=
  match lookupLast (pyLower (stemOf (basenameOf x))) datPairs with
  | none => Except.ok recs
  | some datHref =>
    match lpSearch (basenameOf x) with
    | none => Except.ok recs
    | some m => do
      let dt ← strptimeYj m.1 m.2
      Except.ok (recs ++ [⟨pyLower (stemOf (basenameOf x)), dt, dt, [x, datHref], none⟩])

/-- data_fetcher._list_lp_records on a directory listing: pair each .xml entry
with the .dat entry of the identical case-insensitive stem; a strptime
ValueError propagates as Except.error. -/
def _list_lp_records (hrefs : List Str) : Except String (List Record) :=
  let xmls := hrefs.filter (fun h => endswith (pyLower h) ((".xml").toList))
  let datPairs := (hrefs.filter (fun h => endswith (pyLower h) ((".dat").toList))).map
    (fun h => (pyLower (stemOf (basenameOf h)), h))
  xmls.foldlM (lpStep datPairs) []

/-- The MSL (Curiosity) landing date 2012-08-06, the fixed placeholder date of
the MSL matcher (the date_range of mission 3 in data_fetcher.MISSIONS). -/
def mslLandingDate : Date := ⟨2012, 8, 6⟩

/-- Match of the pattern sol followed by 5 digits (case-insensitive) anchored
at the head of cs. -/
def mslMatchAt (cs : Str) : Bool :=
  match cs with
  | s :: o :: l :: d1 :: d2 :: d3 :: d4 :: d5 :: _ =>
    (s.toLower == 's') && (o.toLower == 'o') && (l.toLower == 'l') &&
      isDig d1 && isDig d2 && isDig d3 && isDig d4 && isDig d5
  | _ => false

/-- Search for the solDDDDD pattern anywhere in a string. -/
def mslSearch : Str → Bool
  | [] => false
  | c :: rest => mslMatchAt (c :: rest) || mslSearch rest

/-- Modelled from the spec: data_fetcher._list_msl_records is absent from the
sources (only its test, test_list_msl_records in src/pytest.py, references
it; src/data_fetcher.py carries the superseding Mars RDR index variant).
Spec 4.2: match solDDDDD in the stem; pair a .dat/.tab entry with the .xml
entry of the identical stem; the date is the fixed placeholder mission
landing date for both bounds. File order (data file first, then label) and
the one-record behavior follow test_list_msl_records. -/
def mslItemOf (xmlPairs : List (Str × Str)) (d : Str) : List Record :=
  match lookupLast (pyLower (stemOf (basenameOf d))) xmlPairs with
  | none => []
  | some x =>
    if mslSearch (pyLower (stemOf (basenameOf d))) then
      [⟨pyLower (stemOf (basenameOf d)), mslLandingDate, mslLandingDate, [d, x], none⟩]
    else []

/-- Modelled from the spec: the missing _list_msl_records itself (see
mslItemOf above) — the record list accumulated over the .dat/.tab entries in
order. -/
def _list_msl_records (hrefs : List Str) : List Record :=
  let dats := hrefs.filter (fun h =>
    endswith (pyLower h) ((".dat").toList) || endswith (pyLower h) ((".tab").toList))
  let xmlPairs := (hrefs.filter (fun h => endswith (pyLower h) ((".xml").toList))).map
    (fun h => (pyLower (stemOf (basenameOf h)), h))
  dats.foldl (fun recs d => recs ++ mslItemOf xmlPairs d) []

/- ------------------------------------------------------------------ -/
/- src/lunar_navigator.py                                              -/
/- ------------------------------------------------------------------ -/

/-- A named Region of lunar_navigator.REGIONS: a lat/lon bounding box plus the
downsample stride (render resolution is irrelevant to the row pipeline). -/
structure Region where
  lat_min : ℚ
  lat_max : ℚ
  lon_min : ℚ
  lon_max : ℚ
  downsample : ℕ

/-- The lat/lon mask of update_map: lat within bounds, and lon within the
bounds or within the 360-shifted bounds. -/
def inRegion (cfg : Region) (r : Row) : Bool :=
  (decide (cfg.lat_min ≤ r.lat) && decide (r.lat ≤ cfg.lat_max)) &&
    ((decide (cfg.lon_min ≤ r.lon) && decide (r.lon ≤ cfg.lon_max)) ||
      (decide (cfg.lon_min + 360 ≤ r.lon) && decide (r.lon ≤ cfg.lon_max + 360)))

/-- pandas iloc[::n]: the elements at the slice indices range(0, len, n),
that is 0, n, 2n, ...; the slice has ceil(len / n) indices. -/
def ilocStep (n : ℕ) (l : List Row) : List Row :=
  (List.range ((l.length + n - 1) / n)).filterMap (fun i => l.get? (n * i))

/-- The row pipeline of lunar_navigator.update_map (lines 130-137): the region
mask, then stride decimation with iloc[::downsample]. -/
def update_map_rows (cfg : Region) (rows : List Row) : List Row :=
  ilocStep cfg.downsample (rows.filter (inRegion cfg))

/- ------------------------------------------------------------------ -/
/- Spec-side notions used to state the claims                          -/
/- ------------------------------------------------------------------ -/

/-- A well-formed selection item of a selection string: a single index or an
inclusive range, each given by its digit string(s). -/
inductive SelItem where
  | single : Str → SelItem
  | srange : Str → Str → SelItem

/-- The text of one selection item. -/
def itemStr : SelItem → Str
  | .single ds => ds
  | .srange a b => a ++ '-' :: b

/-- Well-formedness of an item: its digit strings are nonempty and all digits. -/
def itemValid : SelItem → Prop
  | .single ds => ds ≠ [] ∧ ∀ c ∈ ds, isDig c = true
  | .srange a b => (a ≠ [] ∧ ∀ c ∈ a, isDig c = true) ∧ (b ≠ [] ∧ ∀ c ∈ b, isDig c = true)

instance itemValidDecidable : (it : SelItem) → Decidable (itemValid it)
  | .single _ => inferInstanceAs (Decidable (_ ∧ _))
  | .srange _ _ => inferInstanceAs (Decidable (_ ∧ _))

/-- Spec-side clipping: keep the values in [1, max_n] and shift each down by
one to a zero-based index. -/
def clip (max_n : ℤ) (s : Finset ℤ) : Finset ℤ :=
  (s.filter (fun v => 1 ≤ v ∧ v ≤ max_n)).image (fun v => v - 1)

/-- The zero-based index set an item denotes: its single value, or the full
inclusive range expansion, clipped to [1, max_n] and shifted down by one. -/
def itemSet (max_n : ℤ) : SelItem → Finset ℤ
  | .single ds => clip max_n {((digitsVal ds : ℕ) : ℤ)}
  | .srange a b => clip max_n (Finset.Icc ((digitsVal a : ℕ) : ℤ) ((digitsVal b : ℕ) : ℤ))

/-- The union of the index sets of a selection. -/
def selSet (max_n : ℤ) (items : List SelItem) : Finset ℤ :=
  items.foldl (fun s it => s ∪ itemSet max_n it) ∅

/-- Render a selection to its comma-separated string. -/
def renderSel : List SelItem → Str
  | [] => []
  | [it] => itemStr it
  | it :: it2 :: rest => itemStr it ++ ',' :: renderSel (it2 :: rest)

/-- The synthetic LP directory listing of the spec's test. -/
def lpDemoListing : List Str :=
  [("1998_016_grs.xml").toList, ("1998_016_grs.dat").toList, ("1998_016_grs.lbl").toList]

/-- The one Record the spec expects from the LP demo listing. -/
def lpDemoRecord : Record :=
  ⟨("1998_016_grs").toList, ⟨1998, 1, 16⟩, ⟨1998, 1, 16⟩,
    [("1998_016_grs.xml").toList, ("1998_016_grs.dat").toList], none⟩

/-- The synthetic MSL directory listing of test_list_msl_records. -/
def mslDemoListing : List Str :=
  [("sol00001.dat").toList, ("sol00001.xml").toList, ("junk.txt").toList]

/-- The one Record expected from the MSL demo listing. -/
def mslDemoRecord : Record :=
  ⟨("sol00001").toList, mslLandingDate, mslLandingDate,
    [("sol00001.dat").toList, ("sol00001.xml").toList], none⟩

/- ------------------------------------------------------------------ -/
/- Lemmas and claim theorems                                           -/
/- ------------------------------------------------------------------ -/

theorem sum_map_sum (m : List (List ℚ)) : (m.map List.sum).sum = m.flatten.sum := by
  induction m with
  | nil => rfl
  | cons r rest ih =>
    simp only [List.map_cons, List.sum_cons, List.flatten_cons, List.sum_append, ih]

/-- C1: collapsing a 2D spectrum with safe_counts preserves the total
integrated counts, and a 1D spectrum is returned unchanged. -/
theorem claim_C1 :
    (∀ S : Spectrum, (safe_counts S).total = S.total) ∧
    (∀ s : List ℚ, safe_counts (Spectrum.one s) = Spectrum.one s) := by
  constructor
  · intro S
    cases S with
    | one s => rfl
    | two m => exact sum_map_sum m
  · intro s
    rfl

/-- C6: the date filter keeps exactly the records whose coverage interval
overlaps the requested bounds — (start absent or date_end >= start) and
(end absent or date_start <= end) — and on the concrete Record covering
2015-03-12..2015-04-01 it keeps the record for start = 2015-03-20 and drops
it for start = 2015-04-02.  (The embedding is a pure List.filter, so the
input list is not mutated.) -/
theorem claim_C6 :
    (∀ (records : List Record) (s e : Option Date) (r : Record),
        r ∈ filter_records_by_date records s e ↔
          r ∈ records ∧ (∀ sd ∈ s, dateLe sd r.date_end = true) ∧
            (∀ ed ∈ e, dateLe r.date_start ed = true)) ∧
    filter_records_by_date [⟨[], ⟨2015, 3, 12⟩, ⟨2015, 4, 1⟩, [], none⟩]
        (some ⟨2015, 3, 20⟩) none =
      [⟨[], ⟨2015, 3, 12⟩, ⟨2015, 4, 1⟩, [], none⟩] ∧
    filter_records_by_date [⟨[], ⟨2015, 3, 12⟩, ⟨2015, 4, 1⟩, [], none⟩]
        (some ⟨2015, 4, 2⟩) none = [] := by
  refine ⟨?_, by decide, by decide⟩
  intro records s e r
  cases s <;> cases e <;>
    simp [filter_records_by_date, List.mem_filter, Option.mem_def]

theorem pyRound_intCast (n : ℤ) : pyRound ((n : ℚ)) = n := by
  norm_num [pyRound]

theorem round4_intCast (n : ℤ) : round4 ((n : ℚ)) = n := by
  have h : ((n : ℚ) * 10000) = ((n * 10000 : ℤ) : ℚ) := by push_cast; ring
  rw [round4, h, pyRound_intCast]
  push_cast
  ring

/-- C2 counterexample: build_library performs no clamping, so a parsed input
file with latitude 100 produces an index row whose lat is 100, outside
[-90, 90]; the claimed invariant fails for that input. -/
theorem claim_C2_counterexample :
    build_library [(("f.xml").toList, ⟨some [some 100], some [some 0]⟩)] =
      [⟨("Moon").toList, ("f.xml").toList, 0, 100, 0⟩] ∧
    ¬ ((100 : ℚ) ≤ 90) := by
  constructor
  · have h100 : round4 ((100 : ℚ)) = 100 := by
      have h := round4_intCast 100
      push_cast at h
      exact h
    have h0 : round4 ((0 : ℚ)) = 0 := by
      have h := round4_intCast 0
      push_cast at h
      exact h
    simp [build_library, processFile, emitRows, h100, h0]
  · norm_num

/-- C3 counterexample: on the selection "1,3" with max_n = 5 the parser
returns the zero-based [0, 2], not the listed one-based values [1, 3], so the
returned set is not the set of listed singles and range members. -/
theorem claim_C3_counterexample :
    parse_file_selection (("1,3").toList) 5 = Except.ok [0, 2] ∧
    parse_file_selection (("1,3").toList) 5 ≠ Except.ok [1, 3] := by
  refine ⟨by rfl, ?_⟩
  intro h
  have h0 : parse_file_selection (("1,3").toList) 5 = Except.ok [0, 2] := by rfl
  rw [h0] at h
  exact absurd (Except.ok.inj h) (by decide)

/-- C4 counterexample: on the malformed selection "x" parse_file_selection
raises ValueError (modelled as Except.error) instead of dropping the token,
and run_plotter calls it outside any try/except. -/
theorem claim_C4_counterexample :
    parse_file_selection (("x").toList) 5 = Except.error ("invalid literal for int") := by
  rfl

theorem except_bind_ok {ε α β : Type} (e : Except ε α) (f : α → Except ε β) (v : β)
    (h : (e >>= f) = Except.ok v) : ∃ a, e = Except.ok a ∧ f a = Except.ok v := by
  cases e with
  | error err => simp [Bind.bind, Except.bind] at h
  | ok a =>
    refine ⟨a, rfl, ?_⟩
    simpa [Bind.bind, Except.bind] using h

theorem lpStep_dates (dp : List (Str × Str)) (recs recs2 : List Record) (x : Str)
    (h : lpStep dp recs x = Except.ok recs2)
    (hP : ∀ r ∈ recs, r.date_start = r.date_end) :
    ∀ r ∈ recs2, r.date_start = r.date_end := by
  unfold lpStep at h
  split at h
  · cases h
    exact hP
  · split at h
    · cases h
      exact hP
    · obtain ⟨dt, hdt, hf⟩ := except_bind_ok _ _ _ h
      cases hf
      intro r hr
      rcases List.mem_append.mp hr with hr | hr
      · exact hP r hr
      · simp at hr
        subst hr
        rfl

theorem lp_fold_dates (dp : List (Str × Str)) (xmls : List Str) :
    ∀ (acc recs : List Record), xmls.foldlM (lpStep dp) acc = Except.ok recs →
      (∀ r ∈ acc, r.date_start = r.date_end) →
      ∀ r ∈ recs, r.date_start = r.date_end := by
  induction xmls with
  | nil =>
    intro acc recs h hP
    simp only [List.foldlM] at h
    cases h
    exact hP
  | cons x xs ih =>
    intro acc recs h hP
    simp only [List.foldlM] at h
    obtain ⟨acc2, hstep, hrest⟩ := except_bind_ok _ _ _ h
    exact ih acc2 recs hrest (lpStep_dates dp acc acc2 x hstep hP)

/-- C7: every Record the LP matcher produces has date_start equal to
date_end, and on the synthetic listing 1998_016_grs.{xml,dat,lbl} it produces
exactly the one Record keyed 1998_016_grs with both dates 1998-01-16 and
files [1998_016_grs.xml, 1998_016_grs.dat]. -/
theorem claim_C7 :
    (∀ (hrefs : List Str) (recs : List Record),
        _list_lp_records hrefs = Except.ok recs →
          ∀ r ∈ recs, r.date_start = r.date_end) ∧
    _list_lp_records lpDemoListing = Except.ok [lpDemoRecord] := by
  constructor
  · intro hrefs recs h
    unfold _list_lp_records at h
    exact lp_fold_dates _ _ [] recs h (by simp)
  · rfl

/-- C7 witness: the theorem applied to the demo listing. -/
theorem claim_C7_witness : lpDemoRecord.date_start = lpDemoRecord.date_end :=
  claim_C7.1 lpDemoListing [lpDemoRecord] (by rfl) lpDemoRecord (by simp)

theorem mem_foldl_append {α β : Type} (g : α → List β) (l : List α) :
    ∀ (init : List β) (x : β),
      x ∈ l.foldl (fun acc a => acc ++ g a) init ↔ x ∈ init ∨ ∃ a ∈ l, x ∈ g a := by
  induction l with
  | nil => simp
  | cons a as ih =>
    intro init x
    rw [List.foldl_cons, ih]
    simp only [List.mem_append, List.mem_cons]
    constructor
    · rintro (⟨hx | hx⟩ | ⟨b, hb, hx⟩)
      · exact Or.inl hx
      · exact Or.inr ⟨a, Or.inl rfl, hx⟩
      · exact Or.inr ⟨b, Or.inr hb, hx⟩
    · rintro (hx | ⟨b, hb | hb, hx⟩)
      · exact Or.inl (Or.inl hx)
      · subst hb; exact Or.inl (Or.inr hx)
      · exact Or.inr ⟨b, hb, hx⟩

/-- C9: every Record the (spec-modelled) MSL matcher produces carries the
fixed placeholder landing date 2012-08-06 as both date_start and date_end,
and on the synthetic listing sol00001.{dat,xml} plus junk.txt it produces
exactly one Record with files [sol00001.dat, sol00001.xml]. -/
theorem claim_C9 :
    (∀ (hrefs : List Str) (r : Record), r ∈ _list_msl_records hrefs →
        r.date_start = mslLandingDate ∧ r.date_end = mslLandingDate) ∧
    _list_msl_records mslDemoListing = [mslDemoRecord] := by
  constructor
  · intro hrefs r h
    unfold _list_msl_records at h
    rw [mem_foldl_append] at h
    rcases h with h | ⟨d, _, hd⟩
    · simp at h
    · unfold mslItemOf at hd
      split at hd
      · simp at hd
      · split at hd
        · simp at hd
          subst hd
          exact ⟨rfl, rfl⟩
        · simp at hd
  · decide

/-- C9 witness: the theorem applied to the record of the demo listing. -/
theorem claim_C9_witness :
    mslDemoRecord.date_start = mslLandingDate ∧ mslDemoRecord.date_end = mslLandingDate :=
  claim_C9.1 mslDemoListing mslDemoRecord (by decide)

theorem emitRows_eq (mission fname : Str) (ps : List (PFloat × PFloat)) :
    ∀ k, emitRows mission fname k ps =
      (ps.enumFrom k).filterMap (fun p =>
        match p.2.1, p.2.2 with
        | some a, some b => some ⟨mission, fname, p.1, round4 a, round4 b⟩
        | _, _ => none) := by
  induction ps with
  | nil => intro k; rfl
  | cons pr rest ih =>
    intro k
    rcases pr with ⟨a, b⟩
    cases a <;> cases b <;>
      simp [emitRows, List.enumFrom, List.filterMap_cons, ih]

/-- C5: for a file whose lat and lon arrays are both present, nonempty and of
equal length, build_library emits exactly one row per NaN-free position, with
record_index the position and both coordinates rounded to 4 decimals (the
enumerated filterMap below); a NaN in either coordinate drops that position;
absent, empty, or mismatched-length coordinate arrays produce no rows. -/
theorem claim_C5 :
    (∀ (mission fname : Str) (lats lons : List PFloat),
        lats ≠ [] → lats.length = lons.length →
        processFile mission (fname, ⟨some lats, some lons⟩) =
          (lats.zip lons).enum.filterMap (fun p =>
            match p.2.1, p.2.2 with
            | some a, some b => some ⟨mission, fname, p.1, round4 a, round4 b⟩
            | _, _ => none)) ∧
    (∀ (mission fname : Str) (lonOpt : Option (List PFloat)),
        processFile mission (fname, ⟨none, lonOpt⟩) = []) ∧
    (∀ (mission fname : Str) (latOpt : Option (List PFloat)),
        processFile mission (fname, ⟨latOpt, none⟩) = []) ∧
    (∀ (mission fname : Str) (lons : List PFloat),
        processFile mission (fname, ⟨some [], some lons⟩) = []) ∧
    (∀ (mission fname : Str) (lats lons : List PFloat),
        lats.length ≠ lons.length →
        processFile mission (fname, ⟨some lats, some lons⟩) = []) := by
  refine ⟨?_, ?_, ?_, ?_, ?_⟩
  · intro mission fname lats lons hne hlen
    show (if lats.length = 0 ∨ lats.length ≠ lons.length then []
      else emitRows mission fname 0 (lats.zip lons)) = _
    rw [if_neg]
    · rw [emitRows_eq]
      rfl
    · push_neg
      exact ⟨fun h => hne (List.length_eq_zero.mp h), hlen⟩
  · intro mission fname lonOpt
    cases lonOpt <;> rfl
  · intro mission fname latOpt
    cases latOpt <;> rfl
  · intro mission fname lons
    rfl
  · intro mission fname lats lons hne
    show (if lats.length = 0 ∨ lats.length ≠ lons.length then []
      else emitRows mission fname 0 (lats.zip lons)) = _
    rw [if_pos (Or.inr hne)]

/-- C5 witness: the first conjunct applied to a concrete file with a NaN in
the middle position. -/
theorem claim_C5_witness :
    ([some 10, none, some 20] : List PFloat) ≠ [] ∧
    ([some 10, none, some 20] : List PFloat).length =
      ([some 30, some 40, some 50] : List PFloat).length ∧
    processFile (("Moon").toList)
        ((("f.xml").toList), ⟨some [some 10, none, some 20], some [some 30, some 40, some 50]⟩) =
      (([some 10, none, some 20] : List PFloat).zip
          ([some 30, some 40, some 50] : List PFloat)).enum.filterMap (fun p =>
        match p.2.1, p.2.2 with
        | some a, some b =>
          some ⟨("Moon").toList, ("f.xml").toList, p.1, round4 a, round4 b⟩
        | _, _ => none) :=
  ⟨by decide, by decide,
    claim_C5.1 (("Moon").toList) (("f.xml").toList) _ _ (by decide) (by decide)⟩

theorem isDig_toNat {c : Char} (h : isDig c = true) : 48 ≤ c.toNat ∧ c.toNat ≤ 57 := by
  simpa [isDig, Bool.and_eq_true, decide_eq_true_eq] using h

theorem isDig_not_space {c : Char} (h : isDig c = true) : pyIsSpace c = false := by
  obtain ⟨h1, h2⟩ := isDig_toNat h
  simp only [pyIsSpace, Bool.or_eq_false_iff, beq_eq_false_iff_ne, ne_eq]
  omega

theorem isDig_ne {c : Char} (h : isDig c = true) :
    c ≠ ',' ∧ c ≠ '-' ∧ c ≠ '_' ∧ c ≠ '+' := by
  obtain ⟨h1, h2⟩ := isDig_toNat h
  refine ⟨fun he => ?_, fun he => ?_, fun he => ?_, fun he => ?_⟩ <;> subst he
  · exact absurd h1 (by decide)
  · exact absurd h1 (by decide)
  · exact absurd h2 (by decide)
  · exact absurd h1 (by decide)

theorem dropWhile_eq_self_of_false {p : Char → Bool} {s : Str}
    (h : ∀ c ∈ s, p c = false) : s.dropWhile p = s := by
  cases s with
  | nil => rfl
  | cons x xs => simp [List.dropWhile_cons, h x (by simp)]

theorem pyStrip_eq_self {s : Str} (h : ∀ c ∈ s, pyIsSpace c = false) : pyStrip s = s := by
  unfold pyStrip
  rw [dropWhile_eq_self_of_false h,
    dropWhile_eq_self_of_false (fun c hc => h c (List.mem_reverse.mp hc)),
    List.reverse_reverse]

theorem pySplit_no_sep {c : Char} {s : Str} (h : c ∉ s) : pySplit c s = [s] := by
  induction s with
  | nil => rfl
  | cons x xs ih =>
    have hxc : ¬(x = c) := by rintro rfl; exact h (List.mem_cons_self x xs)
    have hrest : c ∉ xs := fun hx => h (List.mem_cons_of_mem _ hx)
    simp [pySplit, hxc, ih hrest]

theorem pySplit_append {c : Char} {s t : Str} (h : c ∉ s) :
    pySplit c (s ++ c :: t) = s :: pySplit c t := by
  induction s with
  | nil => simp [pySplit]
  | cons x xs ih =>
    have hxc : ¬(x = c) := by rintro rfl; exact h (List.mem_cons_self x xs)
    have hrest : c ∉ xs := fun hx => h (List.mem_cons_of_mem _ hx)
    simp [pySplit, hxc, ih hrest]

theorem digitsCore_digits {ds : Str} (h : ∀ c ∈ ds, isDig c = true) :
    digitsCore ds = some ds := by
  induction ds with
  | nil => rfl
  | cons c cs ih =>
    simp [digitsCore, h c (by simp), ih (fun x hx => h x (by simp [hx]))]

theorem parseUDigits_digits {ds : Str} (hne : ds ≠ []) (h : ∀ c ∈ ds, isDig c = true) :
    parseUDigits ds = some (digitsVal ds) := by
  cases ds with
  | nil => exact absurd rfl hne
  | cons c cs => simp [parseUDigits, h c (by simp), digitsCore_digits h]

theorem pyInt_digits {ds : Str} (hne : ds ≠ []) (h : ∀ c ∈ ds, isDig c = true) :
    pyInt ds = Except.ok ((digitsVal ds : ℕ) : ℤ) := by
  have hstrip : pyStrip ds = ds :=
    pyStrip_eq_self (fun c hc => isDig_not_space (h c hc))
  unfold pyInt
  rw [hstrip]
  cases ds with
  | nil => exact absurd rfl hne
  | cons c cs =>
    have hc := h c (by simp)
    obtain ⟨-, hdash, -, hplus⟩ := isDig_ne hc
    simp [hdash, hplus, parseUDigits_digits hne h]

theorem mem_intRange {a b x : ℤ} : x ∈ intRange a b ↔ a ≤ x ∧ x < b := by
  unfold intRange
  rw [List.mem_map]
  constructor
  · rintro ⟨k, hk, rfl⟩
    rw [List.mem_range] at hk
    omega
  · rintro ⟨h1, h2⟩
    exact ⟨(x - a).toNat, by rw [List.mem_range]; omega, by omega⟩

theorem foldl_insertClip_mem (max_n : ℤ) (l : List ℤ) :
    ∀ (out : List ℤ) (x : ℤ),
      x ∈ l.foldl (fun s i => if 1 ≤ i ∧ i ≤ max_n then List.insert (i - 1) s else s) out ↔
        x ∈ out ∨ ∃ v ∈ l, (1 ≤ v ∧ v ≤ max_n) ∧ x = v - 1 := by
  induction l with
  | nil => simp
  | cons i is ih =>
    intro out x
    rw [List.foldl_cons, ih]
    by_cases hc : 1 ≤ i ∧ i ≤ max_n
    · rw [if_pos hc]
      simp only [List.mem_insert_iff, List.mem_cons]
      constructor
      · rintro ((rfl | hx) | ⟨v, hv, hvc, rfl⟩)
        · exact Or.inr ⟨i, Or.inl rfl, hc, rfl⟩
        · exact Or.inl hx
        · exact Or.inr ⟨v, Or.inr hv, hvc, rfl⟩
      · rintro (hx | ⟨v, rfl | hv, hvc, rfl⟩)
        · exact Or.inl (Or.inr hx)
        · exact Or.inl (Or.inl rfl)
        · exact Or.inr ⟨v, hv, hvc, rfl⟩
    · rw [if_neg hc]
      simp only [List.mem_cons]
      constructor
      · rintro (hx | ⟨v, hv, hvc, rfl⟩)
        · exact Or.inl hx
        · exact Or.inr ⟨v, Or.inr hv, hvc, rfl⟩
      · rintro (hx | ⟨v, rfl | hv, hvc, rfl⟩)
        · exact Or.inl hx
        · exact absurd hvc hc
        · exact Or.inr ⟨v, hv, hvc, rfl⟩

theorem foldl_insertClip_nodup (max_n : ℤ) (l : List ℤ) :
    ∀ (out : List ℤ), out.Nodup →
      (l.foldl (fun s i => if 1 ≤ i ∧ i ≤ max_n then List.insert (i - 1) s else s) out).Nodup := by
  induction l with
  | nil => intro out h; exact h
  | cons i is ih =>
    intro out h
    rw [List.foldl_cons]
    by_cases hc : 1 ≤ i ∧ i ≤ max_n
    · rw [if_pos hc]
      exact ih _ (h.insert)
    · rw [if_neg hc]
      exact ih _ h

theorem addRange_mem (max_n a b : ℤ) (out : List ℤ) (x : ℤ) :
    x ∈ addRange max_n out a b ↔
      x ∈ out ∨ ∃ v, (a ≤ v ∧ v ≤ b) ∧ (1 ≤ v ∧ v ≤ max_n) ∧ x = v - 1 := by
  unfold addRange
  rw [foldl_insertClip_mem]
  constructor
  · rintro (hx | ⟨v, hv, hvc, rfl⟩)
    · exact Or.inl hx
    · rcases mem_intRange.mp hv with ⟨h1, h2⟩
      exact Or.inr ⟨v, ⟨h1, by omega⟩, hvc, rfl⟩
  · rintro (hx | ⟨v, ⟨h1, h2⟩, hvc, rfl⟩)
    · exact Or.inl hx
    · exact Or.inr ⟨v, mem_intRange.mpr ⟨h1, by omega⟩, hvc, rfl⟩

theorem addRange_nodup (max_n a b : ℤ) (out : List ℤ) (h : out.Nodup) :
    (addRange max_n out a b).Nodup :=
  foldl_insertClip_nodup max_n _ out h

theorem itemStr_class {it : SelItem} (h : itemValid it) :
    ∀ c ∈ itemStr it, isDig c = true ∨ c = '-' := by
  cases it with
  | single ds =>
    intro c hc
    exact Or.inl (h.2 c hc)
  | srange a b =>
    intro c hc
    simp only [itemStr, List.mem_append, List.mem_cons] at hc
    rcases hc with hc | hc | hc
    · exact Or.inl (h.1.2 c hc)
    · exact Or.inr hc
    · exact Or.inl (h.2.2 c hc)

theorem itemStr_no_comma {it : SelItem} (h : itemValid it) : (',' : Char) ∉ itemStr it := by
  intro hc
  rcases itemStr_class h _ hc with hd | he
  · exact (isDig_ne hd).1 rfl
  · exact absurd he (by decide)

theorem itemStr_no_space {it : SelItem} (h : itemValid it) :
    ∀ c ∈ itemStr it, pyIsSpace c = false := by
  intro c hc
  rcases itemStr_class h _ hc with hd | rfl
  · exact isDig_not_space hd
  · decide

theorem except_ok_bind {ε α β : Type} (a : α) (f : α → Except ε β) :
    (Except.ok a >>= f : Except ε β) = f a := rfl

theorem mem_clip {max_n x : ℤ} {s : Finset ℤ} :
    x ∈ clip max_n s ↔ ∃ v ∈ s, (1 ≤ v ∧ v ≤ max_n) ∧ x = v - 1 := by
  unfold clip
  simp only [Finset.mem_image, Finset.mem_filter]
  constructor
  · rintro ⟨v, ⟨hv, hc⟩, rfl⟩
    exact ⟨v, hv, hc, rfl⟩
  · rintro ⟨v, hv, hc, rfl⟩
    exact ⟨v, ⟨hv, hc⟩, rfl⟩

theorem mem_itemSet_single {max_n x : ℤ} {ds : Str} :
    x ∈ itemSet max_n (SelItem.single ds) ↔
      (1 ≤ ((digitsVal ds : ℕ) : ℤ) ∧ ((digitsVal ds : ℕ) : ℤ) ≤ max_n) ∧
        x = ((digitsVal ds : ℕ) : ℤ) - 1 := by
  rw [show itemSet max_n (SelItem.single ds) =
      clip max_n {((digitsVal ds : ℕ) : ℤ)} from rfl, mem_clip]
  constructor
  · rintro ⟨v, hv, hc, rfl⟩
    rw [Finset.mem_singleton] at hv
    subst hv
    exact ⟨hc, rfl⟩
  · rintro ⟨hc, rfl⟩
    exact ⟨_, Finset.mem_singleton_self _, hc, rfl⟩

theorem mem_itemSet_srange {max_n x : ℤ} {a b : Str} :
    x ∈ itemSet max_n (SelItem.srange a b) ↔
      ∃ v, (((digitsVal a : ℕ) : ℤ) ≤ v ∧ v ≤ ((digitsVal b : ℕ) : ℤ)) ∧
        (1 ≤ v ∧ v ≤ max_n) ∧ x = v - 1 := by
  rw [show itemSet max_n (SelItem.srange a b) =
      clip max_n (Finset.Icc ((digitsVal a : ℕ) : ℤ) ((digitsVal b : ℕ) : ℤ)) from rfl,
    mem_clip]
  constructor
  · rintro ⟨v, hv, hc, rfl⟩
    rw [Finset.mem_Icc] at hv
    exact ⟨v, hv, hc, rfl⟩
  · rintro ⟨v, hv, hc, rfl⟩
    exact ⟨v, Finset.mem_Icc.mpr hv, hc, rfl⟩

theorem parsePart_single (max_n : ℤ) (out : List ℤ) (ds : Str) (hne : ds ≠ [])
    (hd : ∀ c ∈ ds, isDig c = true) :
    parsePart max_n out ds =
      Except.ok (if 1 ≤ ((digitsVal ds : ℕ) : ℤ) ∧ ((digitsVal ds : ℕ) : ℤ) ≤ max_n
        then List.insert (((digitsVal ds : ℕ) : ℤ) - 1) out else out) := by
  have hstrip : pyStrip ds = ds :=
    pyStrip_eq_self (fun c hc => isDig_not_space (hd c hc))
  unfold parsePart
  rw [hstrip]
  rw [if_neg (fun hmem => absurd (hd _ hmem) (by decide))]
  rw [pyInt_digits hne hd, except_ok_bind]
  rfl

theorem parsePart_srange (max_n : ℤ) (out : List ℤ) (a b : Str)
    (hnea : a ≠ []) (hda : ∀ c ∈ a, isDig c = true)
    (hneb : b ≠ []) (hdb : ∀ c ∈ b, isDig c = true) :
    parsePart max_n out (a ++ '-' :: b) =
      Except.ok (addRange max_n out ((digitsVal a : ℕ) : ℤ) ((digitsVal b : ℕ) : ℤ)) := by
  have hsp : ∀ c ∈ a ++ '-' :: b, pyIsSpace c = false := by
    intro c hc
    rcases List.mem_append.mp hc with hc | hc
    · exact isDig_not_space (hda c hc)
    · rcases List.mem_cons.mp hc with rfl | hc
      · decide
      · exact isDig_not_space (hdb c hc)
  have hna : ('-' : Char) ∉ a := fun hmem => absurd (hda _ hmem) (by decide)
  have hnb : ('-' : Char) ∉ b := fun hmem => absurd (hdb _ hmem) (by decide)
  unfold parsePart
  rw [pyStrip_eq_self hsp]
  rw [if_pos (by simp : ('-' : Char) ∈ a ++ '-' :: b)]
  rw [pySplit_append hna, pySplit_no_sep hnb]
  show (do
    let ia ← pyInt a
    let ib ← pyInt b
    pure (addRange max_n out ia ib) : Except String (List ℤ)) = _
  rw [pyInt_digits hnea hda, except_ok_bind, pyInt_digits hneb hdb, except_ok_bind]
  rfl

theorem parsePart_item (max_n : ℤ) (out : List ℤ) (it : SelItem) (h : itemValid it) :
    ∃ out2, parsePart max_n out (itemStr it) = Except.ok out2 ∧
      (∀ x, x ∈ out2 ↔ x ∈ out ∨ x ∈ itemSet max_n it) ∧
      (out.Nodup → out2.Nodup) := by
  cases it with
  | single ds =>
    obtain ⟨hne, hd⟩ := h
    refine ⟨_, parsePart_single max_n out ds hne hd, ?_, ?_⟩
    · intro x
      rw [mem_itemSet_single]
      by_cases hc : 1 ≤ ((digitsVal ds : ℕ) : ℤ) ∧ ((digitsVal ds : ℕ) : ℤ) ≤ max_n
      · rw [if_pos hc, List.mem_insert_iff]
        constructor
        · rintro (rfl | hx)
          · exact Or.inr ⟨hc, rfl⟩
          · exact Or.inl hx
        · rintro (hx | ⟨hc2, rfl⟩)
          · exact Or.inr hx
          · exact Or.inl rfl
      · rw [if_neg hc]
        constructor
        · exact Or.inl
        · rintro (hx | ⟨hc2, rfl⟩)
          · exact hx
          · exact absurd hc2 hc
    · intro hn
      by_cases hc : 1 ≤ ((digitsVal ds : ℕ) : ℤ) ∧ ((digitsVal ds : ℕ) : ℤ) ≤ max_n
      · rw [if_pos hc]
        exact hn.insert
      · rw [if_neg hc]
        exact hn
  | srange a b =>
    obtain ⟨⟨hnea, hda⟩, hneb, hdb⟩ := h
    refine ⟨_, parsePart_srange max_n out a b hnea hda hneb hdb, ?_, ?_⟩
    · intro x
      rw [addRange_mem, mem_itemSet_srange]
    · intro hn
      exact addRange_nodup _ _ _ _ hn

theorem pySplit_renderSel : ∀ (items : List SelItem), items ≠ [] →
    (∀ it ∈ items, itemValid it) →
    pySplit ',' (renderSel items) = items.map itemStr := by
  intro items
  induction items with
  | nil => intro h _; exact absurd rfl h
  | cons it its ih =>
    intro _ hv
    cases its with
    | nil => exact pySplit_no_sep (itemStr_no_comma (hv it (by simp)))
    | cons it2 rest =>
      rw [show renderSel (it :: it2 :: rest) =
          itemStr it ++ ',' :: renderSel (it2 :: rest) from rfl]
      rw [pySplit_append (itemStr_no_comma (hv it (by simp)))]
      rw [ih (by simp) (fun x hx => hv x (by simp [hx]))]
      rfl

theorem foldlM_items (max_n : ℤ) : ∀ (items : List SelItem) (acc : List ℤ),
    (∀ it ∈ items, itemValid it) →
    ∃ out, (items.map itemStr).foldlM (parsePart max_n) acc = Except.ok out ∧
      (∀ x, x ∈ out ↔ x ∈ acc ∨ ∃ it ∈ items, x ∈ itemSet max_n it) ∧
      (acc.Nodup → out.Nodup) := by
  intro items
  induction items with
  | nil =>
    intro acc _
    exact ⟨acc, rfl, by simp, fun h => h⟩
  | cons it its ih =>
    intro acc hv
    obtain ⟨out1, h1, hm1, hn1⟩ := parsePart_item max_n acc it (hv it (by simp))
    obtain ⟨out2, h2, hm2, hn2⟩ := ih out1 (fun x hx => hv x (by simp [hx]))
    refine ⟨out2, ?_, ?_, fun hn => hn2 (hn1 hn)⟩
    · show (parsePart max_n acc (itemStr it) >>=
        fun b => (its.map itemStr).foldlM (parsePart max_n) b) = Except.ok out2
      rw [h1, except_ok_bind, h2]
    · intro x
      rw [hm2, hm1]
      constructor
      · rintro ((hx | hx) | ⟨v, hv2, hx⟩)
        · exact Or.inl hx
        · exact Or.inr ⟨it, by simp, hx⟩
        · exact Or.inr ⟨v, by simp [hv2], hx⟩
      · rintro (hx | ⟨v, hv2, hx⟩)
        · exact Or.inl (Or.inl hx)
        · rcases List.mem_cons.mp hv2 with rfl | hv2
          · exact Or.inl (Or.inr hx)
          · exact Or.inr ⟨v, hv2, hx⟩

theorem mem_selSet_aux (max_n : ℤ) : ∀ (items : List SelItem) (s : Finset ℤ) (x : ℤ),
    x ∈ items.foldl (fun s2 it => s2 ∪ itemSet max_n it) s ↔
      x ∈ s ∨ ∃ it ∈ items, x ∈ itemSet max_n it := by
  intro items
  induction items with
  | nil => simp
  | cons it its ih =>
    intro s x
    rw [List.foldl_cons, ih]
    simp only [Finset.mem_union, List.mem_cons]
    constructor
    · rintro ((hx | hx) | ⟨v, hv, hx⟩)
      · exact Or.inl hx
      · exact Or.inr ⟨it, Or.inl rfl, hx⟩
      · exact Or.inr ⟨v, Or.inr hv, hx⟩
    · rintro (hx | ⟨v, rfl | hv, hx⟩)
      · exact Or.inl (Or.inl hx)
      · exact Or.inl (Or.inr hx)
      · exact Or.inr ⟨v, hv, hx⟩

theorem insertionSort_eq_finset_sort (l : List ℤ) (s : Finset ℤ) (hn : l.Nodup)
    (hm : ∀ x, x ∈ l ↔ x ∈ s) :
    List.insertionSort (fun a b => a ≤ b) l = s.sort (fun a b => a ≤ b) := by
  have hp1 : List.Perm (List.insertionSort (fun a b => a ≤ b) l) l :=
    List.perm_insertionSort _ l
  have hp2 : List.Perm l (s.sort (fun a b => a ≤ b)) := by
    apply List.perm_of_nodup_nodup_toFinset_eq hn (Finset.sort_nodup _ s)
    apply Finset.ext
    intro a
    simp [List.mem_toFinset, hm, Finset.mem_sort]
  exact List.eq_of_perm_of_sorted (hp1.trans hp2)
    (List.sorted_insertionSort _ l) (Finset.sort_sorted _ s)

theorem parse_valid_eq (items : List SelItem) (max_n : ℤ) (hne : items ≠ [])
    (hv : ∀ it ∈ items, itemValid it) :
    parse_file_selection (renderSel items) max_n =
      Except.ok ((selSet max_n items).sort (fun a b => a ≤ b)) := by
  obtain ⟨out, hfold, hmem, hnd⟩ := foldlM_items max_n items [] hv
  unfold parse_file_selection
  rw [pySplit_renderSel items hne hv, hfold, except_ok_bind]
  have hms : ∀ x, x ∈ out ↔ x ∈ selSet max_n items := by
    intro x
    rw [hmem x]
    simp only [List.not_mem_nil, false_or]
    have ha := mem_selSet_aux max_n items ∅ x
    simp only [Finset.not_mem_empty, false_or] at ha
    exact ha.symm
  rw [show (pure (List.insertionSort (fun a b => a ≤ b) out) : Except String (List ℤ)) =
      Except.ok (List.insertionSort (fun a b => a ≤ b) out) from rfl]
  rw [insertionSort_eq_finset_sort out (selSet max_n items) (hnd List.nodup_nil) hms]

/-- C3 amended: for every valid selection (nonempty comma-separated digit
singles and digit ranges), parse_file_selection returns the ascending
enumeration of the de-duplicated set of i - 1 for each listed single i and
each member i of each expanded inclusive range, with entries outside
[1, max_n] dropped — the zero-based counterparts of the valid one-based
entries. -/
theorem claim_C3_amended (items : List SelItem) (max_n : ℤ) (hne : items ≠ [])
    (hv : ∀ it ∈ items, itemValid it) :
    parse_file_selection (renderSel items) max_n =
      Except.ok ((selSet max_n items).sort (fun a b => a ≤ b)) :=
  parse_valid_eq items max_n hne hv

/-- C3 witness: the amended theorem applied to the selection "1,3-5" with
max_n = 4. -/
theorem claim_C3_witness :
    ([SelItem.single (("1").toList), SelItem.srange (("3").toList) (("5").toList)] ≠
      ([] : List SelItem)) ∧
    (∀ it ∈ [SelItem.single (("1").toList), SelItem.srange (("3").toList) (("5").toList)],
        itemValid it) ∧
    parse_file_selection
        (renderSel [SelItem.single (("1").toList),
          SelItem.srange (("3").toList) (("5").toList)]) 4 =
      Except.ok ((selSet 4 [SelItem.single (("1").toList),
        SelItem.srange (("3").toList) (("5").toList)]).sort (fun a b => a ≤ b)) :=
  ⟨by simp, by decide, claim_C3_amended _ 4 (by simp) (by decide)⟩

/-- C4 amended: parsing never raises on valid selection strings — out-of-range
indices are merely dropped (for example "0,10,2" with max_n = 3 yields [1]) —
but malformed tokens raise ValueError, modelled as Except.error: an ill-formed
range "1-2-3" fails tuple unpacking and a blank part fails int(); run_plotter
calls parse_file_selection outside any try/except, so these propagate. -/
theorem claim_C4_amended :
    (∀ (items : List SelItem) (max_n : ℤ), items ≠ [] →
        (∀ it ∈ items, itemValid it) →
        ∃ l, parse_file_selection (renderSel items) max_n = Except.ok l) ∧
    parse_file_selection (("0,10,2").toList) 3 = Except.ok [1] ∧
    parse_file_selection (("1-2-3").toList) 5 = Except.error ("bad unpack of split") ∧
    parse_file_selection ((" ").toList) 5 = Except.error ("invalid literal for int") := by
  refine ⟨?_, by rfl, by rfl, by rfl⟩
  intro items max_n hne hv
  exact ⟨_, parse_valid_eq items max_n hne hv⟩

/-- C4 witness: the no-raise conjunct applied to the selection "2-9" with
max_n = 7. -/
theorem claim_C4_witness :
    ([SelItem.srange (("2").toList) (("9").toList)] ≠ ([] : List SelItem)) ∧
    (∀ it ∈ [SelItem.srange (("2").toList) (("9").toList)], itemValid it) ∧
    ∃ l, parse_file_selection
        (renderSel [SelItem.srange (("2").toList) (("9").toList)]) 7 = Except.ok l :=
  ⟨by simp, by decide, claim_C4_amended.1 _ 7 (by simp) (by decide)⟩

theorem parsePart_bound {max_n : ℤ} {out out2 : List ℤ} {p : Str}
    (h : parsePart max_n out p = Except.ok out2) :
    ∀ x ∈ out2, x ∈ out ∨ (0 ≤ x ∧ x ≤ max_n - 1) := by
  unfold parsePart at h
  split at h
  · split at h
    · obtain ⟨ia, hia, h2⟩ := except_bind_ok _ _ _ h
      obtain ⟨ib, hib, h3⟩ := except_bind_ok _ _ _ h2
      have h4 := Except.ok.inj h3
      subst h4
      intro x hx
      rcases (addRange_mem max_n ia ib out x).mp hx with hx | ⟨v, _, hvc, rfl⟩
      · exact Or.inl hx
      · right
        omega
    · exact absurd h (by simp)
  · obtain ⟨i, hi, h2⟩ := except_bind_ok _ _ _ h
    have h3 := Except.ok.inj h2
    subst h3
    intro x hx
    by_cases hc : 1 ≤ i ∧ i ≤ max_n
    · rw [if_pos hc] at hx
      rcases List.mem_insert_iff.mp hx with rfl | hx
      · right
        omega
      · exact Or.inl hx
    · rw [if_neg hc] at hx
      exact Or.inl hx

theorem parsePart_nodup {max_n : ℤ} {out out2 : List ℤ} {p : Str}
    (h : parsePart max_n out p = Except.ok out2) (hn : out.Nodup) : out2.Nodup := by
  unfold parsePart at h
  split at h
  · split at h
    · obtain ⟨ia, hia, h2⟩ := except_bind_ok _ _ _ h
      obtain ⟨ib, hib, h3⟩ := except_bind_ok _ _ _ h2
      have h4 := Except.ok.inj h3
      subst h4
      exact addRange_nodup _ _ _ _ hn
    · exact absurd h (by simp)
  · obtain ⟨i, hi, h2⟩ := except_bind_ok _ _ _ h
    have h3 := Except.ok.inj h2
    subst h3
    by_cases hc : 1 ≤ i ∧ i ≤ max_n
    · rw [if_pos hc]
      exact hn.insert
    · rw [if_neg hc]
      exact hn

theorem foldlM_bound (max_n : ℤ) : ∀ (parts : List Str) (acc out : List ℤ),
    parts.foldlM (parsePart max_n) acc = Except.ok out →
    (∀ x ∈ acc, 0 ≤ x ∧ x ≤ max_n - 1) → ∀ x ∈ out, 0 ≤ x ∧ x ≤ max_n - 1 := by
  intro parts
  induction parts with
  | nil =>
    intro acc out h hacc
    simp only [List.foldlM] at h
    cases h
    exact hacc
  | cons p ps ih =>
    intro acc out h hacc
    simp only [List.foldlM] at h
    obtain ⟨acc2, hstep, hrest⟩ := except_bind_ok _ _ _ h
    apply ih acc2 out hrest
    intro x hx
    rcases parsePart_bound hstep x hx with hx2 | hb
    · exact hacc x hx2
    · exact hb

theorem foldlM_nodup (max_n : ℤ) : ∀ (parts : List Str) (acc out : List ℤ),
    parts.foldlM (parsePart max_n) acc = Except.ok out → acc.Nodup → out.Nodup := by
  intro parts
  induction parts with
  | nil =>
    intro acc out h hacc
    simp only [List.foldlM] at h
    cases h
    exact hacc
  | cons p ps ih =>
    intro acc out h hacc
    simp only [List.foldlM] at h
    obtain ⟨acc2, hstep, hrest⟩ := except_bind_ok _ _ _ h
    exact ih acc2 out hrest (parsePart_nodup hstep hacc)

/-- C10: whenever parse_file_selection succeeds, every returned integer is a
zero-based index in [0, max_n - 1] (the one-based user index minus one after
the [1, max_n] clip) and the returned list is strictly increasing. -/
theorem claim_C10 (sel : Str) (max_n : ℤ) (l : List ℤ)
    (h : parse_file_selection sel max_n = Except.ok l) :
    (∀ x ∈ l, 0 ≤ x ∧ x ≤ max_n - 1) ∧ List.Sorted (fun a b => a < b) l := by
  unfold parse_file_selection at h
  obtain ⟨out, hfold, h2⟩ := except_bind_ok _ _ _ h
  have h3 := Except.ok.inj h2
  subst h3
  constructor
  · intro x hx
    have hx2 : x ∈ out :=
      (List.perm_insertionSort (fun a b => a ≤ b) out).mem_iff.mp hx
    exact foldlM_bound max_n _ [] out hfold (by simp) x hx2
  · have hs := List.sorted_insertionSort (fun a b => a ≤ b) out
    have hnd : (List.insertionSort (fun a b => a ≤ b) out).Nodup :=
      ((List.perm_insertionSort (fun a b => a ≤ b) out).nodup_iff).mpr
        (foldlM_nodup max_n _ [] out hfold List.nodup_nil)
    exact hs.lt_of_le hnd

/-- C10 witness: the theorem applied to the selection "2,4" with max_n = 5,
whose parse is [1, 3]. -/
theorem claim_C10_witness :
    parse_file_selection (("2,4").toList) 5 = Except.ok [1, 3] ∧
    ((∀ x ∈ ([1, 3] : List ℤ), 0 ≤ x ∧ x ≤ 5 - 1) ∧
      List.Sorted (fun a b => a < b) ([1, 3] : List ℤ)) :=
  ⟨by rfl, claim_C10 (("2,4").toList) 5 [1, 3] (by rfl)⟩

theorem filterMap_get?_of_isSome {α β : Type} (g : α → Option β) :
    ∀ (l : List α), (∀ a ∈ l, (g a).isSome) →
      ∀ j, (l.filterMap g).get? j = (l.get? j).bind g := by
  intro l
  induction l with
  | nil => intro _ j; simp
  | cons a as ih =>
    intro h j
    cases hga : g a with
    | none =>
      have := h a (by simp)
      rw [hga] at this
      simp at this
    | some b =>
      cases j with
      | zero => simp [List.filterMap_cons, hga]
      | succ j2 =>
        simp only [List.filterMap_cons, hga, List.get?]
        exact ih (fun x hx => h x (by simp [hx])) j2

theorem iloc_idx_lt {n len i : ℕ} (hn : 0 < n) (hi : i < (len + n - 1) / n) :
    n * i < len := by
  have h1 : (i + 1) * n ≤ ((len + n - 1) / n) * n := Nat.mul_le_mul_right n hi
  have h2 : ((len + n - 1) / n) * n ≤ len + n - 1 := Nat.div_mul_le_self _ _
  have h3 : i * n + n ≤ len + n - 1 := by
    have := le_trans h1 h2
    rw [add_mul, one_mul] at this
    exact this
  rw [Nat.mul_comm]
  generalize hm : i * n = m at h3 ⊢
  omega

theorem iloc_idx_ge {n len j : ℕ} (hn : 0 < n) (hj : (len + n - 1) / n ≤ j) :
    len ≤ n * j := by
  have hdm := Nat.div_add_mod (len + n - 1) n
  have hmod : (len + n - 1) % n < n := Nat.mod_lt _ hn
  have hq : n * ((len + n - 1) / n) ≤ n * j := Nat.mul_le_mul_left n hj
  generalize hA : n * ((len + n - 1) / n) = A at hdm hq
  generalize hC : n * j = C at hq ⊢
  generalize hr : (len + n - 1) % n = r at hdm hmod
  omega

theorem ilocStep_get {n : ℕ} (hn : 0 < n) (l : List Row) (j : ℕ) :
    (ilocStep n l).get? j = l.get? (n * j) := by
  unfold ilocStep
  rw [filterMap_get?_of_isSome]
  · by_cases hj : j < (l.length + n - 1) / n
    · rw [List.get?_eq_getElem?, List.getElem?_range hj]
      rfl
    · push_neg at hj
      rw [List.get?_eq_none.mpr (by simpa [List.length_range] using hj)]
      rw [show (none : Option ℕ).bind (fun i => l.get? (n * i)) = none from rfl]
      rw [eq_comm, List.get?_eq_none]
      exact iloc_idx_ge hn hj
  · intro i hi
    rw [List.mem_range] at hi
    rw [List.get?_eq_get (iloc_idx_lt hn hi)]
    rfl

/-- C8: the update_map row pipeline selects exactly the rows whose lat lies in
[lat_min, lat_max] and whose lon lies in [lon_min, lon_max] or in the
360-shifted window, and the result exposes every downsample-th selected row
starting from the first: element j of the output is element downsample * j of
the selected rows. -/
theorem claim_C8 (cfg : Region) (rows : List Row) (h : 0 < cfg.downsample) :
    (∀ r : Row, r ∈ rows.filter (inRegion cfg) ↔ r ∈ rows ∧
        ((cfg.lat_min ≤ r.lat ∧ r.lat ≤ cfg.lat_max) ∧
          ((cfg.lon_min ≤ r.lon ∧ r.lon ≤ cfg.lon_max) ∨
            (cfg.lon_min + 360 ≤ r.lon ∧ r.lon ≤ cfg.lon_max + 360)))) ∧
    (∀ j : ℕ, (update_map_rows cfg rows).get? j =
      (rows.filter (inRegion cfg)).get? (cfg.downsample * j)) := by
  constructor
  · intro r
    rw [List.mem_filter]
    simp [inRegion, Bool.and_eq_true, Bool.or_eq_true, decide_eq_true_eq]
  · intro j
    exact ilocStep_get h _ j

/-- C8 witness: the theorem applied to the Mare-Tranquillitatis-like region
(lat 0..25, lon 20..45, stride 10) and a one-row index. -/
theorem claim_C8_witness :
    0 < (Region.mk 0 25 20 45 10).downsample ∧
    ((∀ r : Row,
        r ∈ ([Row.mk [] [] 0 10 30] : List Row).filter (inRegion (Region.mk 0 25 20 45 10)) ↔
          r ∈ ([Row.mk [] [] 0 10 30] : List Row) ∧
            (((Region.mk 0 25 20 45 10).lat_min ≤ r.lat ∧
                r.lat ≤ (Region.mk 0 25 20 45 10).lat_max) ∧
              (((Region.mk 0 25 20 45 10).lon_min ≤ r.lon ∧
                  r.lon ≤ (Region.mk 0 25 20 45 10).lon_max) ∨
                ((Region.mk 0 25 20 45 10).lon_min + 360 ≤ r.lon ∧
                  r.lon ≤ (Region.mk 0 25 20 45 10).lon_max + 360)))) ∧
      (∀ j : ℕ,
        (update_map_rows (Region.mk 0 25 20 45 10) ([Row.mk [] [] 0 10 30])).get? j =
          (([Row.mk [] [] 0 10 30] : List Row).filter
            (inRegion (Region.mk 0 25 20 45 10))).get?
              ((Region.mk 0 25 20 45 10).downsample * j))) :=
  ⟨by decide, claim_C8 (Region.mk 0 25 20 45 10) ([Row.mk [] [] 0 10 30]) (by decide)⟩

theorem floor_le_pyRound (q : ℚ) : ⌊q⌋ ≤ pyRound q := by
  unfold pyRound
  split_ifs <;> omega

theorem pyRound_le_floor_add_one (q : ℚ) : pyRound q ≤ ⌊q⌋ + 1 := by
  unfold pyRound
  split_ifs <;> omega

theorem pyRound_mono {x y : ℚ} (h : x ≤ y) : pyRound x ≤ pyRound y := by
  rcases lt_or_eq_of_le (Int.floor_le_floor h) with hf | hf
  · have h1 := pyRound_le_floor_add_one x
    have h2 := floor_le_pyRound y
    omega
  · have hr : x - (⌊y⌋ : ℚ) ≤ y - (⌊y⌋ : ℚ) := by linarith
    unfold pyRound
    rw [hf]
    split_ifs <;> first | omega | linarith

theorem round4_mono {x y : ℚ} (h : x ≤ y) : round4 x ≤ round4 y := by
  unfold round4
  have h1 : pyRound (x * 10000) ≤ pyRound (y * 10000) := pyRound_mono (by linarith)
  have h2 : ((pyRound (x * 10000) : ℚ)) ≤ ((pyRound (y * 10000) : ℚ)) := by
    exact_mod_cast h1
  exact (div_le_div_iff_of_pos_right (by norm_num)).mpr h2

theorem round4_le_90 {v : ℚ} (h : v ≤ 90) : round4 v ≤ 90 := by
  have h1 : round4 v ≤ round4 ((90 : ℚ)) := round4_mono h
  have h2 : round4 ((90 : ℚ)) = 90 := by
    have h3 := round4_intCast 90
    push_cast at h3
    exact h3
  linarith

theorem round4_ge_neg90 {v : ℚ} (h : -90 ≤ v) : -90 ≤ round4 v := by
  have h1 : round4 ((-90 : ℚ)) ≤ round4 v := round4_mono h
  have h2 : round4 ((-90 : ℚ)) = -90 := by
    have h3 := round4_intCast (-90)
    push_cast at h3
    exact h3
  linarith

theorem mem_emitRows {mission fname : Str} {r : Row} :
    ∀ (k : ℕ) (ps : List (PFloat × PFloat)), r ∈ emitRows mission fname k ps →
      ∃ a b, (some a, some b) ∈ ps ∧ r.lat = round4 a ∧ r.lon = round4 b := by
  intro k ps
  induction ps generalizing k with
  | nil => intro h; simp [emitRows] at h
  | cons pr rest ih =>
    rcases pr with ⟨pa, pb⟩
    cases pa with
    | none =>
      cases pb with
      | none =>
        intro h
        obtain ⟨a, b, hm, hl⟩ := ih (k + 1) h
        exact ⟨a, b, by simp [hm], hl⟩
      | some b0 =>
        intro h
        obtain ⟨a, b, hm, hl⟩ := ih (k + 1) h
        exact ⟨a, b, by simp [hm], hl⟩
    | some a0 =>
      cases pb with
      | none =>
        intro h
        obtain ⟨a, b, hm, hl⟩ := ih (k + 1) h
        exact ⟨a, b, by simp [hm], hl⟩
      | some b0 =>
        intro h
        rcases List.mem_cons.mp h with rfl | h2
        · exact ⟨a0, b0, by simp, rfl, rfl⟩
        · obtain ⟨a, b, hm, hl⟩ := ih (k + 1) h2
          exact ⟨a, b, by simp [hm], hl⟩

theorem mem_build_library {files : List (Str × Parsed)} {r : Row}
    (h : r ∈ build_library files) :
    ∃ f ∈ files, r ∈ processFile (("Moon").toList) f := by
  unfold build_library at h
  rw [mem_foldl_append] at h
  rcases h with h | h
  · simp at h
  · exact h

theorem mem_processFile_lat {mission fname : Str} {latOpt lonOpt : Option (List PFloat)}
    {r : Row} (h : r ∈ processFile mission (fname, ⟨latOpt, lonOpt⟩)) :
    ∃ ls, latOpt = some ls ∧ ∃ a, (some a) ∈ ls ∧ r.lat = round4 a := by
  cases latOpt with
  | none => cases lonOpt <;> simp [processFile] at h
  | some ls =>
    cases lonOpt with
    | none => simp [processFile] at h
    | some lo =>
      refine ⟨ls, rfl, ?_⟩
      rw [show processFile mission (fname, ⟨some ls, some lo⟩) =
        (if ls.length = 0 ∨ ls.length ≠ lo.length then []
          else emitRows mission fname 0 (ls.zip lo)) from rfl] at h
      split at h
      · simp at h
      · obtain ⟨a, b, hm, hla, _⟩ := mem_emitRows 0 _ h
        exact ⟨a, (List.of_mem_zip hm).1, hla⟩

/-- C2 amended: build_library stores each non-NaN latitude rounded to 4
decimals without clamping, so the invariant -90 <= lat <= 90 holds exactly
when the parsed inputs respect it: if every non-NaN latitude of every parsed
file lies in [-90, 90], then so does the lat of every emitted row (rounding
preserves the bounds); an out-of-range input latitude is stored out of
range. -/
theorem claim_C2_amended (files : List (Str × Parsed))
    (hin : ∀ f ∈ files, ∀ ls, f.2.lat = some ls → ∀ v : ℚ, (some v) ∈ ls →
      -90 ≤ v ∧ v ≤ 90) :
    ∀ r ∈ build_library files, -90 ≤ r.lat ∧ r.lat ≤ 90 := by
  intro r hr
  obtain ⟨f, hf, hpf⟩ := mem_build_library hr
  obtain ⟨fname, parsed⟩ := f
  obtain ⟨latOpt, lonOpt⟩ := parsed
  obtain ⟨ls, hls, a, ha, hlat⟩ := mem_processFile_lat hpf
  have hb := hin _ hf ls hls a ha
  rw [hlat]
  exact ⟨round4_ge_neg90 hb.1, round4_le_90 hb.2⟩

/-- C2 witness: the amended theorem applied to a file whose only non-NaN
latitude is 45. -/
theorem claim_C2_witness :
    (∀ f ∈ ([(("f.xml").toList, Parsed.mk (some [some 45, none]) (some [some 350, some 20]))] :
        List (Str × Parsed)), ∀ ls, f.2.lat = some ls → ∀ v : ℚ, (some v) ∈ ls →
        -90 ≤ v ∧ v ≤ 90) ∧
    (∀ r ∈ build_library
        [(("f.xml").toList, Parsed.mk (some [some 45, none]) (some [some 350, some 20]))],
      -90 ≤ r.lat ∧ r.lat ≤ 90) := by
  have hin : ∀ f ∈ ([(("f.xml").toList,
      Parsed.mk (some [some 45, none]) (some [some 350, some 20]))] :
        List (Str × Parsed)), ∀ ls, f.2.lat = some ls → ∀ v : ℚ, (some v) ∈ ls →
        -90 ≤ v ∧ v ≤ 90 := by
    intro f hf ls hls v hv
    rcases List.mem_singleton.mp hf with rfl
    simp only [Option.some.injEq] at hls
    subst hls
    rcases List.mem_cons.mp hv with hv | hv
    · rcases Option.some.inj hv with rfl
      norm_num
    · simp at hv
  exact ⟨hin, claim_C2_amended _ hin⟩
